import Mathlib

/-!
Verification of the AI-LitReview paper-aggregation and citation pipeline.

This file gives a shallow embedding, in Lean, of the pure text-processing
core of the repository:

* `refining_agent.py` — citation extraction (`extract_citations`),
  validation (`verify_citations`) and the post-processing of
  `refine_review`;
* `paper_selection_agent.py` — title-based deduplication, the exact-match
  partition and the parsing of the LLM ranking response in
  `select_papers`;
* `literature_agent.py` — the narrative/bibliography split in `run`,
  `get_key_phrases` and `generate_queries`.

Python strings are modelled as `List Char`; functions that can raise an
exception are modelled with `Option` (`none` = the exception).  Machine
text is ASCII at the call sites in question, so Python's Unicode-aware
`str.lower`, `str.isdigit` and whitespace classes are modelled by their
ASCII restrictions.
-/

namespace LitReview

/-! ## Python string primitives -/

/-- Whitespace as recognised by Python's `str.strip`, `str.split()` and the
regex class `\s` (ASCII restriction). -/
def isWS (c : Char) : Bool :=
  c = ' ' || c = '\t' || c = '\n' || c = '\r' || c = '\x0b' || c = '\x0c'

/-- Python `str.strip()`: drop whitespace from both ends. -/
def pyStrip (l : List Char) : List Char :=
  ((l.dropWhile isWS).reverse.dropWhile isWS).reverse

/-- Python `str.lower()` (ASCII restriction). -/
def pyLower (l : List Char) : List Char := l.map Char.toLower

/-- Decimal value of a digit string (no sign, no separators), as Python's
`int` computes it on a string of digits. -/
def natOfDigits (l : List Char) : Nat :=
  l.foldl (fun acc c => 10 * acc + (c.toNat - 48)) 0

/-- Python `str.isdigit()` (ASCII restriction): nonempty and all digits. -/
def isDigitString (l : List Char) : Bool :=
  !l.isEmpty && l.all Char.isDigit

/-- Python `int(s)` on the strings that arise in `refining_agent.py`: after
the regex class `[\d\s,-]` and the comma/hyphen splits, the argument holds
only digits and whitespace, so `int` strips the whitespace and requires a
nonempty digit string; anything else raises `ValueError` (`none`). -/
def pyIntDigits (l : List Char) : Option Nat :=
  let t := pyStrip l
  if isDigitString t then some (natOfDigits t) else none

/-- Worker for `pySplitSub`; the fuel is an upper bound on the number of
steps (each step consumes at least one character of `rest`). -/
def splitSubGo (sep : List Char) : Nat → List Char → List Char → List (List Char)
  | 0, acc, rest => [acc.reverse ++ rest]
  | fuel + 1, acc, rest =>
    if sep.isPrefixOf rest && !sep.isEmpty then
      acc.reverse :: splitSubGo sep fuel [] (rest.drop sep.length)
    else
      match rest with
      | [] => [acc.reverse]
      | c :: cs => splitSubGo sep fuel (c :: acc) cs

/-- Python `s.split(sep)` for a nonempty separator string: split at every
non-overlapping occurrence of `sep`, scanning left to right, keeping empty
segments, always returning at least one segment. -/
def pySplitSub (s sep : List Char) : List (List Char) :=
  splitSubGo sep (s.length + 1) [] s

/-- Worker for `pyReplaceEmpty` (fuel as in `splitSubGo`). -/
def replaceGo (pat : List Char) : Nat → List Char → List Char
  | 0, rest => rest
  | fuel + 1, rest =>
    if pat.isPrefixOf rest && !pat.isEmpty then
      replaceGo pat fuel (rest.drop pat.length)
    else
      match rest with
      | [] => []
      | c :: cs => c :: replaceGo pat fuel cs

/-- Python `s.replace(pat, '')` (the replacement is the empty string at
every call site modelled here): delete every non-overlapping occurrence of
`pat`, scanning left to right. -/
def pyReplaceEmpty (s pat : List Char) : List Char :=
  replaceGo pat (s.length + 1) s

/-- Worker for `pySplitWs`. -/
def splitWsGo : Nat → List Char → List (List Char)
  | 0, _ => []
  | fuel + 1, l =>
    let l' := l.dropWhile isWS
    if l'.isEmpty then []
    else l'.takeWhile (fun c => !isWS c) :: splitWsGo fuel (l'.dropWhile (fun c => !isWS c))

/-- Python `s.split()` with no argument: split on runs of whitespace and
drop empty tokens. -/
def pySplitWs (l : List Char) : List (List Char) :=
  splitWsGo (l.length + 1) l

/-- Substring containment, Python's `needle in hay` on strings. -/
def containsSub (hay needle : List Char) : Bool :=
  (List.range (hay.length + 1)).any (fun i => needle.isPrefixOf (hay.drop i))

/-! ## refining_agent.py — RefiningAgent.extract_citations

`extract_citations` scans `re.finditer(r'\[([\d\s,\-]+)\]', text)`: a
literal `[`, one or more characters of the class (digits, whitespace,
comma, hyphen), then a literal `]`.  Since the class excludes both
brackets, a match at a given `[` succeeds exactly when the maximal run of
class characters after it is nonempty and is followed immediately by `]`;
otherwise the scan resumes one character further, as `re.finditer` does. -/

/-- Character class `[\d\s,\-]` of the citation-group regex. -/
def groupClassChar (c : Char) : Bool :=
  c.isDigit || isWS c || c = ',' || c = '-'

/-- Worker for `findGroups` (fuel: each step consumes at least one
character). -/
def findGroupsGo : Nat → List Char → List (List Char)
  | 0, _ => []
  | _ + 1, [] => []
  | fuel + 1, '[' :: rest =>
    let run := rest.takeWhile groupClassChar
    match rest.drop run.length with
    | ']' :: tail => if run.isEmpty then findGroupsGo fuel rest else run :: findGroupsGo fuel tail
    | _ => findGroupsGo fuel rest
  | fuel + 1, _ :: rest => findGroupsGo fuel rest

/-- The group strings produced by `re.finditer(r'\[([\d\s,\-]+)\]', text)`,
in text order. -/
def findGroups (l : List Char) : List (List Char) :=
  findGroupsGo (l.length + 1) l

/-- One comma-separated part of a citation group: strip it; if it contains
a hyphen, `start, end = map(int, part.split('-'))` (a `ValueError` unless
there are exactly two integer pieces) and expand `range(start, end + 1)`;
otherwise `int(part)`. -/
def parsePart (part : List Char) : Option (List Nat) :=
  let p := pyStrip part
  if p.contains '-' then
    match pySplitSub p ['-'] with
    | [a, b] =>
      match pyIntDigits a, pyIntDigits b with
      | some s, some e => some ((List.range (e + 1 - s)).map (· + s))
      | _, _ => none
    | _ => none
  else
    (pyIntDigits p).map (fun n => [n])

/-- Split a citation group on commas and parse every part, concatenating
the results; any part's `ValueError` aborts the whole extraction. -/
def parseGroup (g : List Char) : Option (List Nat) :=
  ((pySplitSub g [',']).mapM parsePart).map List.flatten

/-- Model of `RefiningAgent.extract_citations` (refining_agent.py lines 13-29):
all citation numbers of the text, duplicates preserved, in scan order;
`none` models the `ValueError` raised on a degenerate part. -/
def extract_citations (text : String) : Option (List Nat) :=
  ((findGroups text.data).mapM parseGroup).map List.flatten

/-! ## refining_agent.py — RefiningAgent.verify_citations -/

/-- The bibliography entry count of `verify_citations`:
`[entry for entry in bibliography.strip().split('\n') if entry.strip()]`. -/
def bibEntryCount (bibliography : String) : Nat :=
  ((pySplitSub (pyStrip bibliography.data) ['\n']).filter
    (fun e => !(pyStrip e).isEmpty)).length

/-- Model of `RefiningAgent.verify_citations` (refining_agent.py lines 31-39):
`all(1 <= c <= max_citation for c in citations)`; `none` models the
`ValueError` that `extract_citations` can raise. -/
def verify_citations (review_text bibliography : String) : Option Bool :=
  (extract_citations review_text).map
    (fun citations =>
      citations.all (fun c => decide (1 ≤ c) && decide (c ≤ bibEntryCount bibliography)))

/-! ## refining_agent.py — RefiningAgent.refine_review post-processing -/

/-- Python `sorted(set(l))` on a list of naturals: the distinct elements in
ascending order (every element of `l` is below `l.foldr max 0 + 1`, so the
filtered range lists exactly the distinct elements, ascending). -/
def pySortedSet (l : List Nat) : List Nat :=
  (List.range (l.foldr max 0 + 1)).filter (fun n => decide (n ∈ l))

/-- The distinct elements of a list in order of first appearance — the
order the specification ascribes to `refine_review`'s third result. -/
def firstAppearanceOrder (l : List Nat) : List Nat :=
  l.foldl (fun acc n => if n ∈ acc then acc else acc ++ [n]) []

/-- The `'References\n-+\n(.*?)$'` search of `refine_review` (and of
`LitReviewPapersAgent.run`): at the leftmost position where the literal
header `"References\n"` is followed by a nonempty run of `-` and a newline,
return `(group 0, group 1)`.  With `re.DOTALL` and the lazy `(.*?)$`,
group 1 is the rest of the string minus one trailing newline if present,
and group 0 is the whole matched block. -/
def refHeaderChars : List Char := "References\n".data

/-- Python `$` (without `re.MULTILINE`): the lazy `(.*?)$` stops just
before a single trailing newline, if the string ends with one. -/
def dropTrailingNl (l : List Char) : List Char :=
  if l.getLast? = some '\n' then l.dropLast else l

/-- Attempt the header pattern at the start of `s`. -/
def tryHeaderAt (s : List Char) : Option (List Char × List Char) :=
  if refHeaderChars.isPrefixOf s then
    let after := s.drop refHeaderChars.length
    let dashes := after.takeWhile (fun c => c = '-')
    if dashes.isEmpty then none
    else
      match after.drop dashes.length with
      | '\n' :: tail =>
        let g1 := dropTrailingNl tail
        some (refHeaderChars ++ dashes ++ '\n' :: g1, g1)
      | _ => none
  else none

/-- Model of `re.search(r'References\n-+\n(.*?)$', s, re.DOTALL)`: try the pattern
at each position left to right; `some (group0, group1)` at the leftmost
match. -/
def headerSearch : List Char → Option (List Char × List Char)
  | [] => none
  | c :: rest =>
    match tryHeaderAt (c :: rest) with
    | some r => some r
    | none => headerSearch rest

/-- The comma-joined citation-order string
`",".join(map(str, sorted(set(final_citations))))`. -/
def joinCommaNats (l : List Nat) : String :=
  String.intercalate "," (l.map (fun n => toString n))

/-- The `(review_text, new_bibliography)` pair computed by `refine_review`
(refining_agent.py lines 74-83) from the stripped model reply: if the
`References` header pattern matches, the bibliography is group 1 stripped
and the narrative is the reply with group 0 deleted and stripped;
otherwise the reply is the narrative and the input bibliography is kept. -/
def refinePostTexts (refined_raw bibliography : String) : String × String :=
  let refined : List Char := pyStrip refined_raw.data
  match headerSearch refined with
  | some (g0, g1) =>
    (String.mk (pyStrip (pyReplaceEmpty refined g0)), String.mk (pyStrip g1))
  | none => (String.mk refined, bibliography)

/-- The sorted distinct citation numbers of `refine_review`'s third result,
before comma-joining: `sorted(set(extract_citations(review_text)))`
(refining_agent.py lines 85-87); `none` models the `ValueError` that
`extract_citations` can raise. -/
def citation_order (review_text : String) : Option (List Nat) :=
  (extract_citations review_text).map pySortedSet

/-- The third result as the specification describes it: the distinct
citation numbers of the narrative in order of first appearance. -/
def citationOrderSpec (review_text : String) : Option (List Nat) :=
  (extract_citations review_text).map firstAppearanceOrder

/-- The full return value of `RefiningAgent.refine_review` as a Python
tuple (a 3-element sequence of strings), given the stripped model reply
and the input bibliography (refining_agent.py line 89). -/
def refine_review_tuple (refined_raw bibliography : String) : Option (List String) :=
  let texts := refinePostTexts refined_raw bibliography
  (extract_citations texts.1).map
    (fun cs => [texts.1, texts.2, joinCommaNats (pySortedSet cs)])

/-- Python tuple unpacking `a, b = t`: succeeds only when the tuple has
exactly two elements, otherwise raises `ValueError` (`none`). -/
def pyUnpack2 (t : List String) : Option (String × String) :=
  match t with
  | [a, b] => some (a, b)
  | _ => none

/-- The refinement step of `LitReviewPapersAgent.run` (literature_agent.py
line 376): `refined_review, bibliography = refine_review(...)` — the
3-tuple returned by `refine_review` unpacked into two variables. -/
def run_refine_step (refined_raw bibliography : String) : Option (String × String) :=
  (refine_review_tuple refined_raw bibliography).bind pyUnpack2

/-! ## paper_selection_agent.py — PaperSelectionAgent.select_papers -/

/-- A paper record as `select_papers` consumes it.  Only the `title` and
`abstract` fields take part in deduplication and exact matching; the other
columns (`authors`, `date`, `journal`, ...) are carried along unchanged
and are irrelevant to the properties proved here, so the `abstract` field
doubles as the record's payload. -/
structure Paper where
  title : String
  abstract : String
deriving DecidableEq, Repr

/-- Pandas `drop_duplicates(subset=['title'])` with `keep='first'` (the
default at line 46, explicit at line 145 of paper_selection_agent.py):
keep each record whose exact `title` value was not seen earlier. -/
def dropDupAux : List String → List Paper → List Paper
  | _, [] => []
  | seen, p :: rest =>
    if p.title ∈ seen then dropDupAux seen rest
    else p :: dropDupAux (p.title :: seen) rest

/-- The aggregator's merge step (paper_selection_agent.py lines 44-46 and
143-145): concatenate the two collections and drop duplicate titles,
first occurrence winning. -/
def selectMerge (l₁ l₂ : List Paper) : List Paper :=
  dropDupAux [] (l₁ ++ l₂)

/-- The normalization the specification ascribes to the dedup key
(case-insensitive, trimmed) — also the normalization
`literature_agent._dummy_paper_fetch` applies (`title.lower().strip()`). -/
def normTitle (t : String) : String :=
  String.mk (pyLower (pyStrip t.data))

/-- The lowercased whitespace-delimited tokens of the topic:
`topic.lower().split()`.  The code wraps them in `set(...)`, which only
deduplicates; an `all(...)` over the set equals an `all` over the list. -/
def topicTokens (topic : String) : List (List Char) :=
  pySplitWs (pyLower topic.data)

/-- The exact-match test of `select_papers` (paper_selection_agent.py
lines 54-60): every topic token is a substring (Python `in`) of the
lowercased title, or every token is a substring of the lowercased
abstract. -/
def exactMatch (topic title abstract : String) : Bool :=
  ((topicTokens topic).all fun w => containsSub (pyLower title.data) w) ||
  ((topicTokens topic).all fun w => containsSub (pyLower abstract.data) w)

/-- One line of the ranking reply (paper_selection_agent.py lines 120-131):
strip it; skip it when empty or without `:`; split at the first `:`
(`line.split(':', 1)`); keep the two pieces only when both satisfy
`str.isdigit()`. -/
def parseLine (line : List Char) : Option (Nat × Nat) :=
  let l := pyStrip line
  if l.isEmpty then none
  else if !l.contains ':' then none
  else
    let idx := l.takeWhile (fun c => c != ':')
    let val := (l.dropWhile (fun c => c != ':')).tail
    if isDigitString idx && isDigitString val then
      some (natOfDigits idx, natOfDigits val)
    else none

/-- Python dict assignment `assignments[idx] = val` on an
insertion-ordered association list: overwrite in place when the key
exists, else append. -/
def upsert (assignments : List (Nat × Nat)) (k v : Nat) : List (Nat × Nat) :=
  if assignments.any (fun p => p.1 == k) then
    assignments.map (fun p => if p.1 == k then (k, v) else p)
  else assignments ++ [(k, v)]

/-- Processing of one reply line into the `assignments` dict: a parsed
`(idx, val)` pair is stored only when `0 <= idx < numRows` and
`0 <= val <= remaining` (paper_selection_agent.py line 132); the lower
bounds are automatic on `Nat`. -/
def rankStep (numRows remaining : Nat) (acc : List (Nat × Nat)) (line : List Char) :
    List (Nat × Nat) :=
  match parseLine line with
  | some (idx, val) =>
    if idx < numRows ∧ val ≤ remaining then upsert acc idx val else acc
  | none => acc

/-- The `assignments` dict built from a list of reply lines. -/
def parseFold (lines : List (List Char)) (numRows remaining : Nat) : List (Nat × Nat) :=
  lines.foldl (rankStep numRows remaining) []

/-- The `assignments` dict for the whole reply `content.split('\n')`. -/
def parseAssignments (content : String) (numRows remaining : Nat) : List (Nat × Nat) :=
  parseFold (pySplitSub content.data ['\n']) numRows remaining

/-- Stable insertion by assigned value: an element is placed before the
first strictly greater value, after equal ones. -/
def insertByVal (p : Nat × Nat) : List (Nat × Nat) → List (Nat × Nat)
  | [] => [p]
  | q :: rest => if p.2 < q.2 then p :: q :: rest else q :: insertByVal p rest

/-- Python's stable `selected_indices.sort(key=lambda x: x[1])`. -/
def sortByVal (l : List (Nat × Nat)) : List (Nat × Nat) :=
  l.foldr insertByVal []

/-- The ranked selection (paper_selection_agent.py lines 136-138): the
pairs with a positive assigned value, sorted stably by value; its `map
Prod.fst` is the `ordered_indices` passed to `.iloc`. -/
def rankedSelection (content : String) (numRows remaining : Nat) : List (Nat × Nat) :=
  sortByVal ((parseAssignments content numRows remaining).filter (fun p => decide (0 < p.2)))

/-! ## literature_agent.py — LitReviewPapersAgent.run narrative split -/

/-- The narrative/bibliography split of `run` (literature_agent.py lines
360-371): first the `'References\n-+\n(.*?)$'` pattern; if it is absent
(or its bibliography strips to empty) fall back to
`initial_review.split("References\n")`, taking segment 0 as the narrative
and segment 1 as the bibliography — an `IndexError` (`none`) when the
string holds no `"References\n"` at all.  Returns
`(review_text, bibliography)`. -/
def composerSplit (initial_review : String) : Option (String × String) :=
  let s := initial_review.data
  let pr :=
    match headerSearch s with
    | some (g0, g1) =>
      (String.mk (pyStrip (pyReplaceEmpty s g0)), String.mk (pyStrip g1))
    | none => (initial_review, "")
  if pr.2 = "" then
    match pySplitSub s refHeaderChars with
    | p0 :: p1 :: _ => some (String.mk p0, String.mk p1)
    | _ => none
  else some pr

/-! ## literature_agent.py — get_key_phrases and generate_queries -/

/-- The keyword list of `get_key_phrases` (literature_agent.py line 81):
`[k.strip() for k in reply.strip().split('\n')]`. -/
def keyPhraseLines (reply : String) : List String :=
  (pySplitSub (pyStrip reply.data) ['\n']).map (fun l => String.mk (pyStrip l))

/-- Model of `LitReviewPapersAgent.get_key_phrases` (literature_agent.py lines
59-85): the first 5 trimmed lines of the stripped reply, or a
`ValueError` (`none`) when there are fewer than 5 lines. -/
def get_key_phrases (reply : String) : Option (List String) :=
  let keywords := keyPhraseLines reply
  if keywords.length < 5 then none else some (keywords.take 5)

/-- Model of `LitReviewPapersAgent.generate_queries` (literature_agent.py lines
131-148), with the positional accesses `keywords[0]`..`keywords[4]`
modelled as bounds-checked lookups (`none` = `IndexError`). -/
def generate_queries (keywords : List String) : Option (List (List String)) :=
  match keywords[0]?, keywords[1]?, keywords[2]?, keywords[3]?, keywords[4]? with
  | some primary, some k1, some k2, some k3, some k4 =>
    some [[primary, k1, k2, k3], [primary, k1], [k1, k2], [primary, k1, k2],
          [primary, k1, k3], [primary, k1, k4], [primary, k2, k3], [primary, k3, k4],
          [k1, k2, k3], [k1, k2, k4], [k1, k3, k4], [k2, k3, k4]]
  | _, _, _, _, _ => none

end LitReview

open LitReview

/-- C2: `extract_citations` scans bracket groups, splits each group on
commas, expands hyphenated parts as inclusive ranges and parses the other
parts as single integers, preserving duplicates across groups; in
particular `extract_citations("[1, 3-5, 7]") = [1, 3, 4, 5, 7]`. -/
theorem extract_citations_groups_ranges :
    extract_citations "[1, 3-5, 7]" = some [1, 3, 4, 5, 7] ∧
    extract_citations "as shown in [1, 3-5, 7] and again in [3-4]" =
      some [1, 3, 4, 5, 7, 3, 4] ∧
    extract_citations "[2] with [2, 2]" = some [2, 2, 2] := by
  refine ⟨?_, ?_, ?_⟩ <;> decide

/-- Every element of a list of naturals is bounded by its `foldr max 0`. -/
theorem le_foldr_max (l : List Nat) : ∀ n ∈ l, n ≤ l.foldr max 0 := by
  induction l with
  | nil => intro n h; cases h
  | cons m rest ih =>
    intro n h
    rcases List.mem_cons.mp h with rfl | h
    · exact Nat.le_max_left _ _
    · exact Nat.le_trans (ih n h) (Nat.le_max_right _ _)

/-- Function `pySortedSet` keeps exactly the members of its input. -/
theorem mem_pySortedSet (l : List Nat) (n : Nat) : n ∈ pySortedSet l ↔ n ∈ l := by
  unfold pySortedSet
  rw [List.mem_filter, List.mem_range]
  constructor
  · exact fun h => of_decide_eq_true h.2
  · intro h
    exact ⟨Nat.lt_succ_of_le (le_foldr_max l n h), decide_eq_true h⟩

/-- Function `pySortedSet` is strictly ascending (hence duplicate-free). -/
theorem pySortedSet_pairwise (l : List Nat) : (pySortedSet l).Pairwise (· < ·) :=
  (List.pairwise_lt_range _).filter _

/-- C9: `extract_citations` is not total: a bracket group of only spaces,
an empty comma-separated part, or a part with two hyphens each raise a
`ValueError` (modelled as `none`), while well-formed single integers and
single-hyphen ranges are extracted. -/
theorem extract_citations_degenerate_parts_raise :
    extract_citations "[ ]" = none ∧
    extract_citations "[1,,2]" = none ∧
    extract_citations "[1-2-3]" = none ∧
    extract_citations "[4]" = some [4] ∧
    extract_citations "[2-4]" = some [2, 3, 4] := by
  refine ⟨?_, ?_, ?_, ?_, ?_⟩ <;> decide

/-- C3: `verify_citations` returns true exactly when every citation number
extracted from the narrative lies in `[1, N]`, `N` the number of non-empty
lines of the bibliography. -/
theorem verify_citations_valid_iff :
    ∀ review_text bibliography cs,
      extract_citations review_text = some cs →
      (verify_citations review_text bibliography = some true ↔
        ∀ c ∈ cs, 1 ≤ c ∧ c ≤ bibEntryCount bibliography) := by
  intro r b cs h
  simp [verify_citations, h, List.all_eq_true, Bool.and_eq_true, decide_eq_true_iff]

/-- Witness for C3: with the 5-entry bibliography `"A\nB\nC\nD\nE"`, a
narrative citing `[1-5]` is valid. -/
theorem verify_citations_five_entry_witness :
    verify_citations "The early work [1-5] agrees." "A\nB\nC\nD\nE" = some true :=
  (verify_citations_valid_iff "The early work [1-5] agrees." "A\nB\nC\nD\nE"
    [1, 2, 3, 4, 5] (by decide)).mpr (by decide)

/-- C7 counterexample: for the narrative `"See [3] and [1]."` the code's
third result lists `1,3` (ascending numeric order) while the order of
first appearance is `3,1` — the two orders differ. -/
theorem citation_order_not_first_appearance :
    citation_order "See [3] and [1]." = some [1, 3] ∧
    citationOrderSpec "See [3] and [1]." = some [3, 1] ∧
    citation_order "See [3] and [1]." ≠ citationOrderSpec "See [3] and [1]." := by
  refine ⟨by decide, by decide, by decide⟩

/-- C7 (amended): the reconciler's third result is the list of distinct
citation numbers of the refined narrative in ascending numeric order —
`sorted(set(...))` — not in order of first appearance. -/
theorem citation_order_sorted_distinct :
    ∀ review_text cs,
      extract_citations review_text = some cs →
      citation_order review_text = some (pySortedSet cs) ∧
      (pySortedSet cs).Pairwise (· < ·) ∧
      (∀ n, n ∈ pySortedSet cs ↔ n ∈ cs) := by
  intro t cs h
  refine ⟨?_, pySortedSet_pairwise cs, fun n => mem_pySortedSet cs n⟩
  simp [citation_order, h]

/-- Witness for C7 (amended), at the narrative `"See [3] and [1]."`. -/
theorem citation_order_sorted_distinct_witness :
    citation_order "See [3] and [1]." = some (pySortedSet [3, 1]) ∧
    (pySortedSet [3, 1]).Pairwise (· < ·) ∧
    (∀ n, n ∈ pySortedSet [3, 1] ↔ n ∈ [3, 1]) :=
  citation_order_sorted_distinct "See [3] and [1]." [3, 1] (by decide)

/-- Output membership of the title dedup: everything kept comes from the
input, is new to `seen`, and is the first input record with its title;
conversely every input title not in `seen` is represented. -/
theorem dropDupAux_spec (l : List Paper) :
    ∀ seen : List String,
      ((dropDupAux seen l).map Paper.title).Nodup ∧
      (∀ p ∈ dropDupAux seen l, p.title ∉ seen ∧
        l.find? (fun q => q.title == p.title) = some p) ∧
      (∀ q ∈ l, q.title ∈ seen ∨ ∃ p ∈ dropDupAux seen l, p.title = q.title) := by
  induction l with
  | nil => intro seen; exact ⟨by simp [dropDupAux], by simp [dropDupAux], by simp⟩
  | cons q rest ih =>
    intro seen
    by_cases hq : q.title ∈ seen
    · have heq : dropDupAux seen (q :: rest) = dropDupAux seen rest := by
        simp [dropDupAux, hq]
      obtain ⟨ih1, ih2, ih3⟩ := ih seen
      rw [heq]
      refine ⟨ih1, ?_, ?_⟩
      · intro p hp
        obtain ⟨hns, hfind⟩ := ih2 p hp
        have hne : (q.title == p.title) = false := by
          rw [beq_eq_false_iff_ne]
          intro hcontra
          exact hns (hcontra ▸ hq)
        exact ⟨hns, by rw [List.find?_cons, hne]; exact hfind⟩
      · intro q' hq'
        rcases List.mem_cons.mp hq' with rfl | h
        · exact Or.inl hq
        · exact ih3 q' h
    · have heq : dropDupAux seen (q :: rest) = q :: dropDupAux (q.title :: seen) rest := by
        simp [dropDupAux, hq]
      obtain ⟨ih1, ih2, ih3⟩ := ih (q.title :: seen)
      rw [heq]
      refine ⟨?_, ?_, ?_⟩
      · rw [List.map_cons, List.nodup_cons]
        refine ⟨?_, ih1⟩
        intro hmem
        obtain ⟨p, hp, hpt⟩ := List.mem_map.mp hmem
        exact (ih2 p hp).1 (hpt ▸ List.mem_cons_self _ _)
      · intro p hp
        rcases List.mem_cons.mp hp with rfl | hp'
        · exact ⟨hq, by rw [List.find?_cons, beq_self_eq_true]⟩
        · obtain ⟨hns, hfind⟩ := ih2 p hp'
          have hne : (q.title == p.title) = false := by
            rw [beq_eq_false_iff_ne]
            intro hcontra
            exact hns (hcontra ▸ List.mem_cons_self _ _)
          exact ⟨fun hs => hns (List.mem_cons_of_mem _ hs),
            by rw [List.find?_cons, hne]; exact hfind⟩
      · intro q' hq'
        rcases List.mem_cons.mp hq' with rfl | h
        · exact Or.inr ⟨q', List.mem_cons_self _ _, rfl⟩
        · rcases ih3 q' h with hmem | ⟨p, hp, hpt⟩
          · rcases List.mem_cons.mp hmem with heq' | hseen
            · exact Or.inr ⟨q, List.mem_cons_self _ _, heq'.symm⟩
            · exact Or.inl hseen
          · exact Or.inr ⟨p, List.mem_cons_of_mem _ hp, hpt⟩

/-- C4 counterexample: two records whose titles agree after lowercasing
and trimming but differ as raw strings are both retained by the
aggregator's merge — the dedup key is the exact title, not the normalized
one. -/
theorem select_merge_case_variants_both_kept :
    normTitle "CRISPR Gene Editing" = normTitle " crispr gene editing " ∧
    selectMerge [⟨"CRISPR Gene Editing", "a"⟩] [⟨" crispr gene editing ", "b"⟩] =
      [⟨"CRISPR Gene Editing", "a"⟩, ⟨" crispr gene editing ", "b"⟩] :=
  ⟨by decide, by decide⟩

/-- C4 (amended): the aggregator's merged output contains exactly one
record per distinct exact title string — equality of the raw `title`
value, case-sensitive and untrimmed, is the dedup key; the first
occurrence wins, and every input title remains represented. -/
theorem select_merge_exact_title_dedup :
    ∀ l₁ l₂ : List Paper,
      ((selectMerge l₁ l₂).map Paper.title).Nodup ∧
      (∀ p ∈ selectMerge l₁ l₂,
        (l₁ ++ l₂).find? (fun q => q.title == p.title) = some p) ∧
      (∀ q ∈ l₁ ++ l₂, ∃ p ∈ selectMerge l₁ l₂, p.title = q.title) := by
  intro l₁ l₂
  obtain ⟨h1, h2, h3⟩ := dropDupAux_spec (l₁ ++ l₂) []
  exact ⟨h1, fun p hp => (h2 p hp).2,
    fun q hq => (h3 q hq).resolve_left (by simp)⟩

/-- Stable insertion produces a permutation of consing. -/
theorem insertByVal_perm (p : Nat × Nat) (l : List (Nat × Nat)) :
    List.Perm (insertByVal p l) (p :: l) := by
  induction l with
  | nil => exact List.Perm.refl _
  | cons q rest ih =>
    unfold insertByVal
    by_cases h : p.2 < q.2
    · rw [if_pos h]
    · rw [if_neg h]
      exact (ih.cons q).trans (List.Perm.swap p q rest)

/-- The stable sort by value permutes its input. -/
theorem sortByVal_perm (l : List (Nat × Nat)) : List.Perm (sortByVal l) l := by
  induction l with
  | nil => exact List.Perm.refl _
  | cons p rest ih =>
    have : sortByVal (p :: rest) = insertByVal p (sortByVal rest) := rfl
    rw [this]
    exact (insertByVal_perm p (sortByVal rest)).trans (ih.cons p)

/-- Everything in an upserted dict is the new pair or an old entry. -/
theorem upsert_mem {acc : List (Nat × Nat)} {k v : Nat} :
    ∀ q ∈ upsert acc k v, q = (k, v) ∨ q ∈ acc := by
  intro q hq
  unfold upsert at hq
  by_cases h : acc.any (fun p => p.1 == k)
  · rw [if_pos h] at hq
    obtain ⟨p, hp, hpe⟩ := List.mem_map.mp hq
    by_cases hb : (p.1 == k) = true
    · rw [if_pos hb] at hpe
      exact Or.inl hpe.symm
    · rw [if_neg hb] at hpe
      exact Or.inr (hpe ▸ hp)
  · rw [if_neg h] at hq
    rcases List.mem_append.mp hq with h1 | h2
    · exact Or.inr h1
    · exact Or.inl (List.mem_singleton.mp h2)

/-- Upserting keeps the key sequence, or appends a genuinely new key. -/
theorem upsert_keys (acc : List (Nat × Nat)) (k v : Nat) :
    (upsert acc k v).map Prod.fst = acc.map Prod.fst ∨
    ((upsert acc k v).map Prod.fst = acc.map Prod.fst ++ [k] ∧
      k ∉ acc.map Prod.fst) := by
  unfold upsert
  by_cases h : acc.any (fun p => p.1 == k)
  · left
    rw [if_pos h, List.map_map]
    apply List.map_congr_left
    intro p _
    by_cases hb : (p.1 == k) = true
    · simp only [Function.comp_apply, if_pos hb]
      exact (eq_of_beq hb).symm
    · simp only [Function.comp_apply, if_neg hb]
  · right
    rw [if_neg h]
    refine ⟨by simp, ?_⟩
    intro hk
    apply h
    obtain ⟨p, hp, hpk⟩ := List.mem_map.mp hk
    exact List.any_eq_true.mpr ⟨p, hp, by simp [hpk]⟩

/-- Upserting preserves distinctness of the keys. -/
theorem upsert_nodup {acc : List (Nat × Nat)} {k v : Nat}
    (h : (acc.map Prod.fst).Nodup) : ((upsert acc k v).map Prod.fst).Nodup := by
  rcases upsert_keys acc k v with he | ⟨he, hk⟩
  · rw [he]; exact h
  · rw [he, List.nodup_append]
    exact ⟨h, List.nodup_singleton k, by simpa using hk⟩

/-- One ranking-reply line preserves the dict invariant: all stored rows
are in range, all stored values at most `remaining`, keys distinct. -/
theorem rankStep_inv {n R : Nat} {acc : List (Nat × Nat)}
    (h1 : ∀ q ∈ acc, q.1 < n ∧ q.2 ≤ R) (h2 : (acc.map Prod.fst).Nodup)
    (line : List Char) :
    (∀ q ∈ rankStep n R acc line, q.1 < n ∧ q.2 ≤ R) ∧
    ((rankStep n R acc line).map Prod.fst).Nodup := by
  cases hp : parseLine line with
  | none =>
    have hstep : rankStep n R acc line = acc := by unfold rankStep; rw [hp]
    rw [hstep]
    exact ⟨h1, h2⟩
  | some pv =>
    obtain ⟨idx, val⟩ := pv
    have hstep : rankStep n R acc line =
        if idx < n ∧ val ≤ R then upsert acc idx val else acc := by
      unfold rankStep; rw [hp]
    rw [hstep]
    by_cases hc : idx < n ∧ val ≤ R
    · rw [if_pos hc]
      refine ⟨?_, upsert_nodup h2⟩
      intro q hq
      rcases upsert_mem q hq with rfl | hold
      · exact hc
      · exact h1 q hold
    · rw [if_neg hc]
      exact ⟨h1, h2⟩

/-- The whole parsed `assignments` dict satisfies the invariant. -/
theorem parseFold_inv (lines : List (List Char)) (n R : Nat) :
    (∀ q ∈ parseFold lines n R, q.1 < n ∧ q.2 ≤ R) ∧
    ((parseFold lines n R).map Prod.fst).Nodup := by
  suffices H : ∀ acc, (∀ q ∈ acc, q.1 < n ∧ q.2 ≤ R) →
      (acc.map Prod.fst).Nodup →
      (∀ q ∈ lines.foldl (rankStep n R) acc, q.1 < n ∧ q.2 ≤ R) ∧
      ((lines.foldl (rankStep n R) acc).map Prod.fst).Nodup by
    exact H [] (by simp) (by simp)
  induction lines with
  | nil => intro acc h1 h2; exact ⟨h1, h2⟩
  | cons line rest ih =>
    intro acc h1 h2
    rw [List.foldl_cons]
    obtain ⟨h1', h2'⟩ := rankStep_inv h1 h2 line
    exact ih _ h1' h2'

/-- C5 counterexample: with `remaining = 6` ranks over 7 candidate rows, a
reply that repeats rank values yields a ranked selection of 7 entries —
more than the claimed bound of 6. -/
theorem ranked_selection_exceeds_bound :
    (rankedSelection "0:1\n1:1\n2:2\n3:2\n4:3\n5:3\n6:4" 7 6).length = 7 ∧
    ¬(rankedSelection "0:1\n1:1\n2:2\n3:2\n4:3\n5:3\n6:4" 7 6).length ≤ 6 :=
  ⟨by decide, by decide⟩

/-- C5 (amended): parsing keeps only well-formed `row:value` lines and
silently drops out-of-bounds pairs, so every ranked-selection entry has a
row below the candidate count and a value in `[1, remaining]`, with at
most one entry per row; the selection's size, however, is bounded by the
number of distinct in-range rows, not by `remaining` — it can exceed
`remaining` when the model repeats rank values. -/
theorem ranked_selection_bounds :
    ∀ content numRows remaining,
      (∀ p ∈ rankedSelection content numRows remaining,
        p.1 < numRows ∧ 1 ≤ p.2 ∧ p.2 ≤ remaining) ∧
      ((rankedSelection content numRows remaining).map Prod.fst).Nodup := by
  intro content n R
  obtain ⟨h1, h2⟩ := parseFold_inv (pySplitSub content.data ['\n']) n R
  have hperm : List.Perm (rankedSelection content n R)
      ((parseAssignments content n R).filter (fun p => decide (0 < p.2))) :=
    sortByVal_perm _
  constructor
  · intro p hp
    have hfil := List.mem_filter.mp (hperm.subset hp)
    have hb := h1 p hfil.1
    exact ⟨hb.1, of_decide_eq_true hfil.2, hb.2⟩
  · have hsub : ((parseAssignments content n R).filter
        (fun p => decide (0 < p.2))).map Prod.fst |>.Nodup :=
      List.Nodup.sublist ((List.filter_sublist _).map Prod.fst) h2
    exact ((hperm.map Prod.fst).nodup_iff).mpr hsub

/-- Python substring containment agrees with list-infix containment. -/
theorem containsSub_eq_isInfix (hay needle : List Char) :
    containsSub hay needle = true ↔ needle <:+: hay := by
  unfold containsSub
  rw [List.any_eq_true]
  constructor
  · rintro ⟨i, _, hpre⟩
    obtain ⟨t, ht⟩ := List.isPrefixOf_iff_prefix.mp hpre
    exact ⟨hay.take i, t, by rw [List.append_assoc, ht, List.take_append_drop]⟩
  · rintro ⟨s, t, rfl⟩
    refine ⟨s.length, ?_, ?_⟩
    · rw [List.mem_range]
      simp [List.length_append]
      omega
    · rw [List.append_assoc, List.drop_left]
      exact List.isPrefixOf_iff_prefix.mpr ⟨t, rfl⟩

/-- C6: a record is an exact match exactly when every lowercase topic
token occurs as a substring of the lowercased title, or every token
occurs in the lowercased abstract; `"CRISPR gene editing methods"` matches
topic `"gene editing"` while `"gene therapy"` does not. -/
theorem exact_match_token_containment :
    (∀ topic title abstract,
      exactMatch topic title abstract = true ↔
        ((∀ w ∈ topicTokens topic, w <:+: pyLower title.data) ∨
         (∀ w ∈ topicTokens topic, w <:+: pyLower abstract.data))) ∧
    exactMatch "gene editing" "CRISPR gene editing methods" "" = true ∧
    exactMatch "gene editing" "gene therapy" "" = false := by
  refine ⟨?_, by decide, by decide⟩
  intro topic title abstract
  simp [exactMatch, List.all_eq_true, containsSub_eq_isInfix]

/-- C1: evaluation of the narrative/bibliography split of `run`.  The
header pattern and the plain `"References\n"` fallback behave as
specified, but an output with no `"References"` substring at all makes the
fallback raise `IndexError` (`none`) instead of yielding the whole output
as narrative with an empty bibliography. -/
theorem composer_split_eval :
    composerSplit "An overview with no marker." = none ∧
    composerSplit "Body text.\n\nReferences\n----------\nA\nB" =
      some ("Body text.", "A\nB") ∧
    composerSplit "Body.\nReferences\n[1] A. Author." =
      some ("Body.\n", "[1] A. Author.") :=
  ⟨by decide, by decide, by decide⟩

/-- C10: `get_key_phrases` raises `ValueError` when the stripped reply has
fewer than 5 lines, and otherwise returns exactly the first 5 trimmed
lines, so the positional indexing `keywords[0]`..`keywords[4]` in
`generate_queries` is always in bounds on its result. -/
theorem get_key_phrases_five_or_error :
    ∀ reply : String,
      ((keyPhraseLines reply).length < 5 → get_key_phrases reply = none) ∧
      (∀ l, get_key_phrases reply = some l →
        l = (keyPhraseLines reply).take 5 ∧ l.length = 5 ∧
        (generate_queries l).isSome = true) := by
  intro reply
  constructor
  · intro h
    simp [get_key_phrases, h]
  · intro l h
    unfold get_key_phrases at h
    by_cases hlen : (keyPhraseLines reply).length < 5
    · rw [if_pos hlen] at h
      exact absurd h (by simp)
    · rw [if_neg hlen] at h
      obtain rfl : (keyPhraseLines reply).take 5 = l := Option.some.inj h
      have h5 : ((keyPhraseLines reply).take 5).length = 5 := by
        rw [List.length_take]
        omega
      refine ⟨rfl, h5, ?_⟩
      have e0 : ((keyPhraseLines reply).take 5)[0]? = some _ :=
        List.getElem?_eq_getElem (by omega)
      have e1 : ((keyPhraseLines reply).take 5)[1]? = some _ :=
        List.getElem?_eq_getElem (by omega)
      have e2 : ((keyPhraseLines reply).take 5)[2]? = some _ :=
        List.getElem?_eq_getElem (by omega)
      have e3 : ((keyPhraseLines reply).take 5)[3]? = some _ :=
        List.getElem?_eq_getElem (by omega)
      have e4 : ((keyPhraseLines reply).take 5)[4]? = some _ :=
        List.getElem?_eq_getElem (by omega)
      unfold generate_queries
      rw [e0, e1, e2, e3, e4]
      rfl

/-- C8: the refinement step of `run` never completes: `refine_review`
returns a 3-tuple, and unpacking it into the two variables
`refined_review, bibliography` raises `ValueError` on every model output,
so the pipeline cannot reach its final combining step. -/
theorem run_refine_step_always_raises :
    ∀ refined_raw bibliography : String,
      run_refine_step refined_raw bibliography = none := by
  intro r b
  unfold run_refine_step refine_review_tuple
  cases h : extract_citations (refinePostTexts r b).1 <;> simp [h, pyUnpack2]
